import Mathlib

/-!
# SyncKing identification engine: verification of the specification claims

Shallow embedding of the core of the SyncKing bacteria-identification
engine (`engine/bacteria_identifier.py`, `engine/extended_reasoner.py`,
`training/gold_trainer.py`) and proofs about it.

Conventions of the embedding:
* Python strings are Lean `String`s; `str.strip()` is `pyStrip`,
  `str.lower()` is `pyLower` (all relevant data is ASCII).
* Python `float` arithmetic is modelled by exact arithmetic: `ℚ` where the
  code only does field arithmetic and comparisons, `ℝ` where it uses
  `math.log` / `math.exp`.
* Python dicts are association lists in insertion order; `dict.get` is a
  `find?`-based lookup on the first matching key (dict keys are unique).
* Fallible numeric parsing (`float(...)` inside `try`) returns `Option`.
-/

namespace SyncKing

/-! ## Python string primitives

The Lean core `String` functions (`trim`, `toLower`, `split`, ...) are
position-based and do not evaluate inside the kernel, so the Python string
operations are implemented here structurally on `List Char` and wrapped
back into `String`. -/

/-- `str.strip()` on a character list: drop whitespace on both ends. -/
def stripList (l : List Char) : List Char :=
  ((l.dropWhile Char.isWhitespace).reverse.dropWhile Char.isWhitespace).reverse

/-- Python `str.strip()` (whitespace on both ends). -/
def pyStrip (s : String) : String := String.mk (stripList s.data)

/-- Python `str.lower()` (ASCII data only in this code base). -/
def pyLower (s : String) : String := String.mk (s.data.map Char.toLower)

/-- Python `needle in hay` substring test. -/
def strContains (hay needle : String) : Bool :=
  hay.data.tails.any (fun t => needle.data.isPrefixOf t)

/-- Python `str.capitalize()`: first character upper-cased, rest lower-cased. -/
def pyCapitalize (s : String) : String :=
  match s.data with
  | [] => ""
  | c :: r => String.mk (c.toUpper :: r.map Char.toLower)

/-- Split a character list at every character satisfying `p`, keeping empty
pieces — the semantics of `re.split` on a single-character class. -/
def splitListP (p : Char → Bool) : List Char → List (List Char)
  | [] => [[]]
  | c :: r =>
    if p c then [] :: splitListP p r
    else
      match splitListP p r with
      | [] => [[c]]
      | x :: xs => (c :: x) :: xs

/-- Split a character list on the two-character separator `//`, scanning
left to right — the semantics of Python `str.split("//")`. -/
def splitDoubleSlash : List Char → List (List Char)
  | '/' :: '/' :: r => [] :: splitDoubleSlash r
  | c :: r =>
    match splitDoubleSlash r with
    | [] => [[c]]
    | x :: xs => (c :: x) :: xs
  | [] => [[]]

/-- Python `s.split("//")`. -/
def pySplitDS (s : String) : List String :=
  (splitDoubleSlash s.data).map String.mk

/-- Python `str.split()` with no argument: split on whitespace runs,
dropping empty pieces. -/
def pyTokens (s : String) : List String :=
  ((splitListP Char.isWhitespace s.data).map String.mk).filter (fun x => x ≠ "")

/-- The value-list splitter of `compare_field`:
`[x.strip() for x in re.split(r"[;/]", s) if x.strip()]`. -/
def splitOptions (s : String) : List String :=
  (((splitListP (fun c => c == ';' || c == '/') s.data).map
      (fun l => String.mk (stripList l))).filter (fun x => x ≠ ""))

/-! ## Python `float()` on decimal literals

`pyFloat` models the builtin `float(str)` as used by the engine: optional
surrounding whitespace, an optional sign, a mantissa `digits[.digits]` (at
least one digit), and an optional `e`/`E` exponent.  The exotic inputs
`float` also accepts (`inf`, `nan`, digit-group underscores) never arise
from this code base's data and are not modelled. -/

/-- Decimal digit run to a natural number. -/
def digitsToNat (l : List Char) : ℕ :=
  l.foldl (fun a c => 10 * a + (c.toNat - 48)) 0

/-- The rational `n · 10 ^ e`, built with `mkRat` so that it evaluates
inside the kernel. -/
def ratScaled (n : ℕ) (e : ℤ) : ℚ :=
  if 0 ≤ e then mkRat (n * 10 ^ e.toNat) 1 else mkRat n (10 ^ (-e).toNat)

/-- Parse an unsigned float literal given as a character list: the value of
`ip.fp` times `10 ^ exponent`. -/
def pyFloatCore (cs : List Char) : Option ℚ :=
  let ip := cs.takeWhile Char.isDigit
  let rest := cs.dropWhile Char.isDigit
  let fp :=
    match rest with
    | '.' :: r => r.takeWhile Char.isDigit
    | _ => []
  let rest2 :=
    match rest with
    | '.' :: r => r.dropWhile Char.isDigit
    | _ => rest
  if ip.isEmpty && fp.isEmpty then none
  else
    let num : ℕ := digitsToNat ip * 10 ^ fp.length + digitsToNat fp
    match rest2 with
    | [] => some (ratScaled num (-(fp.length : ℤ)))
    | e :: r =>
      if e == 'e' || e == 'E' then
        let esign : ℤ := match r with | '-' :: _ => -1 | _ => 1
        let r2 := match r with | '+' :: t => t | '-' :: t => t | t => t
        let ed := r2.takeWhile Char.isDigit
        let r3 := r2.dropWhile Char.isDigit
        if ed.isEmpty || !r3.isEmpty then none
        else some (ratScaled num (esign * (digitsToNat ed : ℤ) - (fp.length : ℤ)))
      else none

/-- Python `float(s)`, returning `none` where Python raises `ValueError`. -/
def pyFloat (s : String) : Option ℚ :=
  match (pyStrip s).data with
  | '+' :: r => pyFloatCore r
  | '-' :: r => (pyFloatCore r).map (fun q => -q)
  | r => pyFloatCore r

/-! ## `BacteriaIdentifier.compare_field` -/

/-- The hard-exclusion field list of `compare_field`. -/
def HARD_EXCLUSIONS : List String := ["Gram Stain", "Shape", "Spore Formation"]

/-- `BacteriaIdentifier.compare_field(db_val, user_val, field_name)`.
Return codes: `1` match, `-1` mismatch, `0` skip, `-999` hard exclusion.
The growth-temperature branch mirrors the Python `try`: the two range
bounds and the user reading must all parse as floats and the range must
have exactly two parts, otherwise the exception handler returns `0`. -/
def compare_field (db_val user_val field_name : String) : Int :=
  if user_val = "" ∨ pyStrip user_val = "" ∨ pyLower user_val = "unknown" then 0
  else
    let d := pyLower (pyStrip db_val)
    let u := pyLower (pyStrip user_val)
    let dbOptions := splitOptions d
    let userOptions := splitOptions u
    if "variable" ∈ dbOptions ∨ "variable" ∈ userOptions then 0
    else if field_name = "Growth Temperature" ∧ strContains d "//" = true then
      match (pySplitDS d).mapM pyFloat, pyFloat u with
      | some [lo, hi], some t => if lo ≤ t ∧ t ≤ hi then 1 else -1
      | _, _ => 0
    else if userOptions.any (fun uo => dbOptions.any
        (fun dbo => strContains dbo uo || strContains uo dbo)) = true then 1
    else if field_name ∈ HARD_EXCLUSIONS then -999
    else -1

example : compare_field "Positive" "Positive" "Catalase" = 1 := by decide
example : compare_field "Positive" "Negative" "Catalase" = -1 := by decide
example : compare_field "Rod" "Coccus" "Shape" = -999 := by decide
example : compare_field "Positive" "" "Catalase" = 0 := by decide
example : compare_field "20//40" "25" "Growth Temperature" = 1 := by decide
example : compare_field "20//40" "45.5" "Growth Temperature" = -1 := by decide
example : compare_field "20//40" "warm" "Growth Temperature" = 0 := by decide
example : compare_field "Variable" "Positive" "Catalase" = 0 := by decide
example : pyFloat "37.5" = some (mkRat 375 10) := by decide
example : pyFloat "1e2" = some 100 := by decide
example : pyFloat "-.5" = some (mkRat (-5) 10) := by decide
example : pyFloat "20//40" = none := by decide

/-! ## Rounding and truncation

`int(x)` on a Python float truncates toward zero; `round(x)` rounds to the
nearest integer with ties to even (banker's rounding).  Both are modelled
exactly on the idealized (exact-arithmetic) values. -/

/-- Python `int(x)`: truncation toward zero. -/
def truncTowardZero (q : ℚ) : ℤ := if 0 ≤ q then ⌊q⌋ else ⌈q⌉

/-- Python `round(x)` on an exact rational: nearest integer, ties to even. -/
def pyRoundQ (q : ℚ) : ℤ :=
  if q - ⌊q⌋ < 1/2 then ⌊q⌋
  else if 1/2 < q - ⌊q⌋ then ⌊q⌋ + 1
  else if ⌊q⌋ % 2 = 0 then ⌊q⌋ else ⌊q⌋ + 1

/-- Python `round(x)` on an exact real: nearest integer, ties to even. -/
noncomputable def pyRoundR (x : ℝ) : ℤ :=
  if x - ⌊x⌋ < 1/2 then ⌊x⌋
  else if 1/2 < x - ⌊x⌋ then ⌊x⌋ + 1
  else if ⌊x⌋ % 2 = 0 then ⌊x⌋ else ⌊x⌋ + 1

/-- `max lo (min hi x)` — the clamp used by the confidence formulas. -/
def clampI (lo hi x : ℤ) : ℤ := max lo (min hi x)

/-! ## `IdentificationResult` and its confidence calculations

The free-text `extended_explanation` attribute is presentation-only and
is not modelled. -/

/-- One per-genus candidate result (`IdentificationResult` in the source). -/
structure IdentificationResult where
  genus : String
  total_score : Int
  matched_fields : List String
  mismatched_fields : List String
  reasoning_factors : List (String × String)
  total_fields_evaluated : Nat
  total_fields_possible : Nat
  extra_notes : String := ""
  extended_likelihood : Option ℝ := none

/-- `IdentificationResult.confidence_percent`:
`max(0, min(100, int((total_score / total_fields_evaluated) * 100)))`,
with `0` when no field was evaluated. -/
def confidence_percent (r : IdentificationResult) : ℤ :=
  if r.total_fields_evaluated = 0 then 0
  else max 0 (min 100 (truncTowardZero
    ((r.total_score : ℚ) / (r.total_fields_evaluated : ℚ) * 100)))

/-- `IdentificationResult.true_confidence`: same formula over
`total_fields_possible`. -/
def true_confidence (r : IdentificationResult) : ℤ :=
  if r.total_fields_possible = 0 then 0
  else max 0 (min 100 (truncTowardZero
    ((r.total_score : ℚ) / (r.total_fields_possible : ℚ) * 100)))

/-- `IdentificationResult.blended_confidence_raw`: core confidence scaled
to `[0,1]`, blended with the extended likelihood when one is present. -/
noncomputable def blended_confidence_raw (r : IdentificationResult)
    (weight_core : ℝ := 7/10) (weight_ext : ℝ := 3/10) : ℝ :=
  let core : ℝ := (confidence_percent r : ℝ) / 100
  match r.extended_likelihood with
  | none => core
  | some ext => weight_core * core + weight_ext * ext

/-- `IdentificationResult.blended_confidence_percent`:
`int(round(raw * 100))`. -/
noncomputable def blended_confidence_percent (r : IdentificationResult)
    (weight_core : ℝ := 7/10) (weight_ext : ℝ := 3/10) : ℤ :=
  pyRoundR (blended_confidence_raw r weight_core weight_ext * 100)

/-- The spec's core-confidence formula as literally stated in C2:
`clamp(0,100, round(score/evaluated·100))`, `0` on a zero denominator. -/
def coreConfidenceSpec (r : IdentificationResult) : ℤ :=
  if r.total_fields_evaluated = 0 then 0
  else clampI 0 100 (pyRoundQ
    ((r.total_score : ℚ) / (r.total_fields_evaluated : ℚ) * 100))

/-! ### Rounding lemmas -/

theorem pyRoundR_intCast (n : ℤ) : pyRoundR (n : ℝ) = n := by
  simp [pyRoundR, Int.floor_intCast]

theorem pyRoundR_nonneg {x : ℝ} (h : 0 ≤ x) : 0 ≤ pyRoundR x := by
  have hf : (0 : ℤ) ≤ ⌊x⌋ := Int.le_floor.mpr (by exact_mod_cast h)
  unfold pyRoundR
  split
  · exact hf
  · split
    · omega
    · split <;> omega

theorem pyRoundR_le_hundred {x : ℝ} (h : x ≤ 100) : pyRoundR x ≤ 100 := by
  have hf : ⌊x⌋ ≤ 100 := by
    have := Int.floor_le_floor h
    simpa using this
  unfold pyRoundR
  split
  · exact hf
  · rename_i h1
    push_neg at h1
    have hlt : ⌊x⌋ < 100 := by
      by_contra hc
      push_neg at hc
      have h100 : ⌊x⌋ = 100 := le_antisymm hf hc
      have : (⌊x⌋ : ℝ) = 100 := by exact_mod_cast h100
      have : x - ⌊x⌋ ≤ 0 := by linarith
      linarith
    split
    · omega
    · split <;> omega

/-! ### Claim C2 -/

/-- A concrete candidate scoring 2 over 3 evaluated fields (5 possible). -/
def rC2 : IdentificationResult :=
  { genus := "Testus", total_score := 2, matched_fields := ["Catalase", "Oxidase"],
    mismatched_fields := [], reasoning_factors := [],
    total_fields_evaluated := 3, total_fields_possible := 5 }

/-- Claim C2, counterexample: the code truncates toward zero
(`int(...)`) where the claim says `round(...)`.  At a score of 2 over 3
evaluated fields the code yields 66 while the claimed formula yields 67. -/
theorem C2_counterexample :
    confidence_percent rC2 = 66 ∧ coreConfidenceSpec rC2 = 67 ∧
      confidence_percent rC2 ≠ coreConfidenceSpec rC2 := by
  have h1 : confidence_percent rC2 = 66 := by
    norm_num [confidence_percent, rC2, truncTowardZero]
  have h2 : coreConfidenceSpec rC2 = 67 := by
    norm_num [coreConfidenceSpec, rC2, pyRoundQ, clampI]
  exact ⟨h1, h2, by omega⟩

/-- Claim C2, amended: core confidence equals
`clamp(0,100, trunc(total_score/total_fields_evaluated · 100))` with
truncation toward zero (not rounding), true confidence equals the same
formula over `total_fields_possible`, each defined as `0` when its
denominator is `0`; both always lie in `[0,100]`. -/
theorem C2_confidence_formulas (r : IdentificationResult) :
    (confidence_percent r = if r.total_fields_evaluated = 0 then 0
      else clampI 0 100 (truncTowardZero
        ((r.total_score : ℚ) / (r.total_fields_evaluated : ℚ) * 100)))
    ∧ (true_confidence r = if r.total_fields_possible = 0 then 0
      else clampI 0 100 (truncTowardZero
        ((r.total_score : ℚ) / (r.total_fields_possible : ℚ) * 100)))
    ∧ 0 ≤ confidence_percent r ∧ confidence_percent r ≤ 100
    ∧ 0 ≤ true_confidence r ∧ true_confidence r ≤ 100 := by
  refine ⟨rfl, rfl, ?_, ?_, ?_, ?_⟩
  · unfold confidence_percent
    split
    · omega
    · omega
  · unfold confidence_percent
    split
    · omega
    · omega
  · unfold true_confidence
    split
    · omega
    · omega
  · unfold true_confidence
    split
    · omega
    · omega

/-! ### Claim C8 -/

/-- Claim C8: blended confidence equals
`weightCore·(core/100) + weightExt·extendedLikelihood` (defaults 0.7/0.3)
when an extended likelihood is present and equals the core confidence
otherwise; in particular blended% = core% without extended likelihood, and
(for a likelihood in `[0,1]`) all three percentages are integers in
`[0,100]`. -/
theorem C8_blended_confidence (r : IdentificationResult) :
    (r.extended_likelihood = none →
      blended_confidence_raw r = (confidence_percent r : ℝ) / 100
      ∧ blended_confidence_percent r = confidence_percent r)
    ∧ (∀ e : ℝ, r.extended_likelihood = some e →
      blended_confidence_raw r = 7/10 * ((confidence_percent r : ℝ) / 100) + 3/10 * e
      ∧ (0 ≤ e → e ≤ 1 →
        0 ≤ blended_confidence_percent r ∧ blended_confidence_percent r ≤ 100))
    ∧ 0 ≤ confidence_percent r ∧ confidence_percent r ≤ 100
    ∧ 0 ≤ true_confidence r ∧ true_confidence r ≤ 100 := by
  obtain ⟨-, -, hc0, hc1, ht0, ht1⟩ := C2_confidence_formulas r
  refine ⟨?_, ?_, hc0, hc1, ht0, ht1⟩
  · intro hnone
    have hraw : blended_confidence_raw r = (confidence_percent r : ℝ) / 100 := by
      unfold blended_confidence_raw
      rw [hnone]
    refine ⟨hraw, ?_⟩
    unfold blended_confidence_percent
    rw [hraw, div_mul_cancel₀ _ (by norm_num : (100:ℝ) ≠ 0)]
    exact pyRoundR_intCast _
  · intro e hsome
    have hraw : blended_confidence_raw r
        = 7/10 * ((confidence_percent r : ℝ) / 100) + 3/10 * e := by
      unfold blended_confidence_raw
      rw [hsome]
    refine ⟨hraw, fun he0 he1 => ?_⟩
    have hcast0 : (0:ℝ) ≤ (confidence_percent r : ℝ) := by exact_mod_cast hc0
    have hcast1 : (confidence_percent r : ℝ) ≤ 100 := by exact_mod_cast hc1
    constructor
    · apply pyRoundR_nonneg
      rw [hraw]
      nlinarith
    · apply pyRoundR_le_hundred
      rw [hraw]
      nlinarith

/-- A concrete candidate carrying an extended likelihood of 1/2. -/
noncomputable def rC8 : IdentificationResult :=
  { genus := "Testus", total_score := 1, matched_fields := ["Catalase"],
    mismatched_fields := ["Oxidase"], reasoning_factors := [],
    total_fields_evaluated := 2, total_fields_possible := 4,
    extended_likelihood := some (1/2) }

/-- Witness for C8 at a concrete candidate. -/
theorem C8_blended_confidence_witness :
    0 ≤ blended_confidence_percent rC8 ∧ blended_confidence_percent rC8 ≤ 100 :=
  ((C8_blended_confidence rC8).2.1 (1/2) rfl).2 (by norm_num) (by norm_num)

/-! ### Claim C10 -/

/-- Claim C10: `compare_field` is total on all string inputs and returns
one of exactly the four codes 1 (match), -1 (mismatch), 0 (skip),
-999 (hard exclusion); the only fallible operation, numeric parsing in the
growth-temperature branch, is modelled by `Option` and guarded to yield
skip. -/
theorem C10_compare_field_total (db_val user_val field_name : String) :
    compare_field db_val user_val field_name = 1
    ∨ compare_field db_val user_val field_name = -1
    ∨ compare_field db_val user_val field_name = 0
    ∨ compare_field db_val user_val field_name = -999 := by
  unfold compare_field
  dsimp only
  repeat' split
  all_goals tauto

/-! ### Claim C4 -/

/-- `strContains s s = true`: every string contains itself. -/
theorem strContains_refl (s : String) : strContains s s = true := by
  unfold strContains
  cases h : s.data with
  | nil => simp
  | cons c r =>
    rw [List.tails_cons, List.any_cons]
    have : (c :: r).isPrefixOf (c :: r) = true :=
      List.isPrefixOf_iff_prefix.mpr (List.prefix_refl _)
    simp [this]

/-- Claim C4, counterexample: two non-empty, non-Unknown values whose
option sets do not contain "Variable", equal on both sides, on which
`compare_field` does not return match: a growth-temperature range value
(`"20//40"`, parsed as a range, then the user copy fails float parsing →
skip), and a bare separator (`";"`, whose option set is empty → mismatch). -/
theorem C4_counterexample :
    compare_field "20//40" "20//40" "Growth Temperature" = 0
    ∧ splitOptions (pyLower (pyStrip "20//40")) = ["20", "40"]
    ∧ compare_field ";" ";" "Catalase" = -1
    ∧ splitOptions (pyLower (pyStrip ";")) = [] := by
  refine ⟨by decide, by decide, by decide, by decide⟩

/-- Claim C4, amended: for every field name and every value whose
normalized option set is non-empty and does not contain "variable", whose
lower-cased form is not "unknown", and which does not enter the
growth-temperature range branch (field ≠ Growth Temperature, or no `//` in
the normalized value), `compare_field` on a database value equal to the
user value returns match. -/
theorem C4_equal_values_match (v f : String)
    (hopts : splitOptions (pyLower (pyStrip v)) ≠ [])
    (hunk : pyLower v ≠ "unknown")
    (hvar : "variable" ∉ splitOptions (pyLower (pyStrip v)))
    (hgt : ¬(f = "Growth Temperature" ∧ strContains (pyLower (pyStrip v)) "//" = true)) :
    compare_field v v f = 1 := by
  have hne : pyStrip v ≠ "" := by
    intro h
    apply hopts
    rw [h]
    rfl
  have hv : v ≠ "" := by
    intro h
    apply hne
    rw [h]
    rfl
  unfold compare_field
  rw [if_neg (by tauto)]
  rw [if_neg (by
    intro h
    rcases h with h | h <;> exact hvar h)]
  rw [if_neg hgt]
  rw [if_pos]
  obtain ⟨o, rest, ho⟩ : ∃ o rest, splitOptions (pyLower (pyStrip v)) = o :: rest := by
    rcases hx : splitOptions (pyLower (pyStrip v)) with - | ⟨o, rest⟩
    · exact absurd hx hopts
    · exact ⟨o, rest, rfl⟩
  rw [ho, List.any_cons, List.any_cons, strContains_refl]
  simp

/-- Witness for C4 (amended) at a concrete value. -/
theorem C4_equal_values_match_witness :
    compare_field "Positive" "Positive" "Oxidase" = 1 :=
  C4_equal_values_match "Positive" "Oxidase" (by decide) (by decide) (by decide)
    (by decide)

/-! ### Claim C5 -/

/-- Claim C5: on the Growth Temperature field, when the database value
contains a `low//high` range and the skip/variable guards do not fire,
`compare_field` returns match iff the user reading lies in the inclusive
range, mismatch otherwise; a failed user parse, a range part that fails to
parse, or a range without exactly two parts all yield skip. -/
theorem C5_growth_temperature_range (db user : String)
    (h1 : ¬(user = "" ∨ pyStrip user = "" ∨ pyLower user = "unknown"))
    (hvar : ¬("variable" ∈ splitOptions (pyLower (pyStrip db))
      ∨ "variable" ∈ splitOptions (pyLower (pyStrip user))))
    (hds : strContains (pyLower (pyStrip db)) "//" = true) :
    (∀ lo hi t : ℚ,
      (pySplitDS (pyLower (pyStrip db))).mapM pyFloat = some [lo, hi] →
      pyFloat (pyLower (pyStrip user)) = some t →
      compare_field db user "Growth Temperature"
        = if lo ≤ t ∧ t ≤ hi then 1 else -1)
    ∧ (pyFloat (pyLower (pyStrip user)) = none →
      compare_field db user "Growth Temperature" = 0)
    ∧ ((pySplitDS (pyLower (pyStrip db))).mapM pyFloat = none →
      compare_field db user "Growth Temperature" = 0)
    ∧ (∀ l, (pySplitDS (pyLower (pyStrip db))).mapM pyFloat = some l →
      l.length ≠ 2 → compare_field db user "Growth Temperature" = 0) := by
  unfold compare_field
  dsimp only
  rw [if_neg h1, if_neg hvar, if_pos ⟨rfl, hds⟩]
  refine ⟨?_, ?_, ?_, ?_⟩
  · intro lo hi t hdb hu
    rw [hdb, hu]
  · intro hu
    rw [hu]
    rcases (pySplitDS (pyLower (pyStrip db))).mapM pyFloat with - | l
    · rfl
    · rcases l with - | ⟨a, - | ⟨b, - | ⟨c, l⟩⟩⟩ <;> rfl
  · intro hdb
    rw [hdb]
  · intro l hdb hlen
    rw [hdb]
    rcases l with - | ⟨a, - | ⟨b, - | ⟨c, l⟩⟩⟩
    · rcases pyFloat (pyLower (pyStrip user)) with - | t <;> rfl
    · rcases pyFloat (pyLower (pyStrip user)) with - | t <;> rfl
    · exact absurd rfl hlen
    · rcases pyFloat (pyLower (pyStrip user)) with - | t <;> rfl

/-- Witness for C5 at a concrete in-range reading. -/
theorem C5_growth_temperature_range_witness :
    compare_field "20//40" "37.5" "Growth Temperature" = 1 := by
  have h := (C5_growth_temperature_range "20//40" "37.5" (by decide) (by decide)
    (by decide)).1 (mkRat 20 1) (mkRat 40 1) (mkRat 375 10) (by decide) (by decide)
  rw [h]
  decide

/-! ## Extended reasoner (`engine/extended_reasoner.py`)

`score_genera_from_extended` is modelled up to its ranked
`(genus, probability)` list; the companion free-text explanation string is
presentation-only and not modelled.  `math.log`/`math.exp` arithmetic is
carried out in `ℝ`. -/

/-- The `PNV` tuple `("Positive", "Negative", "Variable")`. -/
def PNVconst : List String := ["Positive", "Negative", "Variable"]

/-- Learned counts for one (genus, test): the `"Positive"`, `"Negative"`,
`"Variable"` and optional `"_n"` entries of the JSON record (absent keys
default to 0, as in the `.get(..., 0)` calls). -/
structure SigStats where
  pos : ℕ := 0
  neg : ℕ := 0
  var : ℕ := 0
  nOpt : Option ℕ := none
deriving DecidableEq

/-- `stats.get("_n", pos + neg + var)`. -/
def SigStats.total (st : SigStats) : ℕ := st.nOpt.getD (st.pos + st.neg + st.var)

/-- The signals catalog: genus → test → counts, in insertion order. -/
abbrev Signals := List (String × List (String × SigStats))

/-- `signals.get(g, {}).get(test, None)`. -/
def sigLookup (signals : Signals) (g t : String) : Option SigStats :=
  match (signals.find? (fun p => p.1 = g)).map (fun p => p.2) with
  | none => none
  | some m => (m.find? (fun q => q.1 = t)).map (fun q => q.2)

/-- `{"Positive": pos, "Negative": neg, "Variable": var}[val]` — only ever
reached with `val` in `PNV` (Python would raise `KeyError` otherwise). -/
def countOf (st : SigStats) (val : String) : ℕ :=
  if val = "Positive" then st.pos else if val = "Negative" then st.neg else st.var

/-- The smoothed probability the reasoner assigns to one
(genus, test, value) triple.  A present-but-empty stats dict is falsy in
Python and takes the uniform branch; it is covered here by the
`total = 0` case, which yields the same value. -/
def probOf (signals : Signals) (alpha : ℚ) (g test val : String) : ℚ :=
  match sigLookup signals g test with
  | none => alpha / (3 * alpha)
  | some st =>
    if st.total = 0 then alpha / (3 * alpha)
    else ((countOf st val : ℚ) + alpha) / ((st.total : ℚ) + 3 * alpha)

/-- Per-genus accumulated log-likelihood: the sum of
`math.log(max(prob, 1e-12))` over the supplied `(test, value)` pairs whose
value is in `PNV` (the code `continue`s past the others). -/
noncomputable def genusScore (signals : Signals) (alpha : ℚ)
    (parsed_ext : List (String × String)) (g : String) : ℝ :=
  ((parsed_ext.filter (fun p => p.2 ∈ PNVconst)).map
    (fun p => Real.log (max ((probOf signals alpha g p.1 p.2 : ℚ) : ℝ) (1/10^12)))).sum

/-- `score_genera_from_extended`: accumulate per-genus log-likelihoods,
normalize by a max-subtracted softmax, and rank descending. -/
noncomputable def score_genera_from_extended (signals : Signals)
    (parsed_ext : List (String × String)) (alpha : ℚ := 1) : List (String × ℝ) :=
  if parsed_ext = [] ∨ signals = [] then []
  else
    match signals with
    | [] => []
    | p :: ps =>
      let genera := p.1 :: ps.map (fun q => q.1)
      let score := genusScore signals alpha parsed_ext
      let maxLog := (ps.map (fun q => score q.1)).foldl max (score p.1)
      let z := (genera.map (fun g => Real.exp (score g - maxLog))).sum
      let ranked := genera.map
        (fun g => (g, if 0 < z then Real.exp (score g - maxLog) / z else 0))
      List.insertionSort (fun a b => b.2 ≤ a.2) ranked

instance : IsTotal (String × ℝ) (fun a b => b.2 ≤ a.2) :=
  ⟨fun a b => le_total b.2 a.2⟩

instance : IsTrans (String × ℝ) (fun a b => b.2 ≤ a.2) :=
  ⟨fun _ _ _ h1 h2 => le_trans h2 h1⟩

/-- A sum of positive reals over a non-empty list is positive. -/
theorem list_sum_pos (l : List ℝ) (hne : l ≠ []) (h : ∀ x ∈ l, 0 < x) :
    0 < l.sum := by
  induction l with
  | nil => exact absurd rfl hne
  | cons x xs ih =>
    rcases xs with - | ⟨y, ys⟩
    · simpa using h x (by simp)
    · have hx := h x (by simp)
      have hs := ih (by simp) (fun a ha => h a (by simp [ha]))
      rw [List.sum_cons]
      positivity

/-- Dividing each mapped term by a constant divides the sum. -/
theorem list_sum_map_div {α : Type} (l : List α) (f : α → ℝ) (z : ℝ) :
    (l.map (fun x => f x / z)).sum = (l.map f).sum / z := by
  induction l with
  | nil => simp
  | cons x xs ih => simp [ih, add_div]

/-! ### Claim C6 -/

/-- Claim C6: for every genus and supplied (field, value) pair the
reasoner assigns probability `alpha/(3·alpha)` (= 1/3 at the default
`alpha = 1`) when no counts exist for the (genus, field), and
`(count_of_value + alpha)/(n + 3·alpha)` when counts with total `n` exist
(under the catalog invariant `n = pos + neg + var`), and accumulates the
natural logarithm of each such probability per genus (the `1e-12` guard
being inactive whenever every probability is at least `1e-12`). -/
theorem C6_extended_probability (signals : Signals) (alpha : ℚ) (g t v : String) :
    (sigLookup signals g t = none → probOf signals alpha g t v = alpha / (3 * alpha))
    ∧ (sigLookup signals g t = none → probOf signals 1 g t v = 1/3)
    ∧ (∀ st, sigLookup signals g t = some st → st.total = st.pos + st.neg + st.var →
      probOf signals alpha g t v
        = ((countOf st v : ℚ) + alpha) / ((st.total : ℚ) + 3 * alpha))
    ∧ (∀ ext g2, (∀ p ∈ ext, p.2 ∈ PNVconst →
        (1:ℝ)/10^12 ≤ ((probOf signals alpha g2 p.1 p.2 : ℚ) : ℝ)) →
      genusScore signals alpha ext g2
        = ((ext.filter (fun p => p.2 ∈ PNVconst)).map
            (fun p => Real.log ((probOf signals alpha g2 p.1 p.2 : ℚ) : ℝ))).sum) := by
  refine ⟨?_, ?_, ?_, ?_⟩
  · intro hnone
    unfold probOf
    rw [hnone]
  · intro hnone
    unfold probOf
    rw [hnone]
    norm_num
  · intro st hst hinv
    unfold probOf
    rw [hst]
    dsimp only
    split
    · rename_i h0
      have hpos : st.pos = 0 := by omega
      have hneg : st.neg = 0 := by omega
      have hvr : st.var = 0 := by omega
      have hcount : countOf st v = 0 := by
        unfold countOf
        split
        · exact hpos
        · split
          · exact hneg
          · exact hvr
      rw [hcount, h0]
      norm_num
    · rfl
  · intro ext g2 hguard
    unfold genusScore
    refine congrArg List.sum (List.map_congr_left ?_)
    intro p hp
    rw [List.mem_filter] at hp
    have hmem : p.2 ∈ PNVconst := by simpa using hp.2
    rw [max_eq_left (hguard p hp.1 hmem)]

/-- A concrete one-genus signals catalog with 8/2/0 counts on TestX. -/
def sigW : Signals := [("Bacillus", [("TestX", ⟨8, 2, 0, some 10⟩)])]

/-- Witness for C6: unseen test → exactly 1/3; seen counts → (8+1)/(10+3). -/
theorem C6_extended_probability_witness :
    probOf sigW 1 "Bacillus" "TestY" "Positive" = 1/3
    ∧ probOf sigW 1 "Bacillus" "TestX" "Positive" = 9/13 := by
  constructor
  · exact (C6_extended_probability sigW 1 "Bacillus" "TestY" "Positive").2.1 rfl
  · have h := (C6_extended_probability sigW 1 "Bacillus" "TestX" "Positive").2.2.1
      ⟨8, 2, 0, some 10⟩ rfl rfl
    rw [h]
    norm_num [countOf, SigStats.total]

/-! ### Claim C7 -/

/-- Claim C7: for a non-empty extended input and a non-empty signals
catalog, the reasoner's output has one entry per catalog genus, its
probabilities sum to exactly 1 (the softmax normalizer is positive), and
it is sorted by probability in descending order. -/
theorem C7_extended_reasoner_distribution (signals : Signals)
    (ext : List (String × String)) (alpha : ℚ)
    (hext : ext ≠ []) (hsig : signals ≠ []) :
    (score_genera_from_extended signals ext alpha).length = signals.length
    ∧ (∀ g ∈ signals.map (fun p => p.1),
      ∃ x ∈ score_genera_from_extended signals ext alpha, x.1 = g)
    ∧ ((score_genera_from_extended signals ext alpha).map (fun x => x.2)).sum = 1
    ∧ (score_genera_from_extended signals ext alpha).Sorted
        (fun a b => b.2 ≤ a.2) := by
  unfold score_genera_from_extended
  rw [if_neg (by tauto)]
  rcases signals with - | ⟨p, ps⟩
  · exact absurd rfl hsig
  · dsimp only
    set score := genusScore (p :: ps) alpha ext with hscore
    set maxLog := (ps.map (fun q => score q.1)).foldl max (score p.1) with hmax
    set genera := p.1 :: ps.map (fun q => q.1) with hgen
    set z := (genera.map (fun g => Real.exp (score g - maxLog))).sum with hz
    have hzpos : 0 < z := by
      rw [hz]
      apply list_sum_pos
      · simp [hgen]
      · intro x hx
        rw [List.mem_map] at hx
        obtain ⟨g, -, rfl⟩ := hx
        exact Real.exp_pos _
    set ranked := genera.map
      (fun g => (g, if 0 < z then Real.exp (score g - maxLog) / z else 0))
      with hranked
    have hperm : (List.insertionSort (fun a b : String × ℝ => b.2 ≤ a.2) ranked).Perm
        ranked := List.perm_insertionSort _ _
    refine ⟨?_, ?_, ?_, ?_⟩
    · rw [hperm.length_eq, hranked]
      simp [hgen]
    · intro g hg
      have hg' : g ∈ genera := by
        rw [hgen]
        simpa using hg
      have : (g, if 0 < z then Real.exp (score g - maxLog) / z else 0) ∈ ranked := by
        rw [hranked]
        exact List.mem_map_of_mem _ hg'
      exact ⟨_, hperm.mem_iff.mpr this, rfl⟩
    · have h1 : ((List.insertionSort (fun a b : String × ℝ => b.2 ≤ a.2) ranked).map
          (fun x => x.2)).sum = (ranked.map (fun x => x.2)).sum := (hperm.map _).sum_eq
      have h2 : ((fun x : String × ℝ => x.2) ∘
          (fun g => (g, if 0 < z then Real.exp (score g - maxLog) / z else 0)))
          = fun g => Real.exp (score g - maxLog) / z := by
        funext g
        simp [hzpos]
      rw [h1, hranked, List.map_map, h2, list_sum_map_div, ← hz,
        div_self (ne_of_gt hzpos)]
    · exact List.sorted_insertionSort _ _

/-- Witness for C7 at a concrete catalog and extended input. -/
theorem C7_extended_reasoner_distribution_witness :
    ((score_genera_from_extended sigW [("TestX", "Positive")] 1).map
      (fun x => x.2)).sum = 1 :=
  (C7_extended_reasoner_distribution sigW [("TestX", "Positive")] 1
    (by decide) (by decide)).2.2.1

/-! ## `BacteriaIdentifier.identify`

The reference table is a column list plus one association-list row per
genus (`db.fillna("")` makes every missing cell the empty string, so
association-list lookups default to `""`).  The observation set is an
association list with default `""` (`user_input.get(field, "")`).
`random.shuffle` is modelled by an explicit `shuffle` parameter. -/

/-- A table row or an observation set: field → value, in column order. -/
abbrev Row := List (String × String)

/-- `dict.get(k, dflt)` on an association list. -/
def lookupD (m : Row) (k dflt : String) : String :=
  ((m.find? (fun p => p.1 = k)).map (fun p => p.2)).getD dflt

/-- `d[k] = v` on an association list (update in place or append). -/
def dictSet (m : Row) (k v : String) : Row :=
  if (m.find? (fun p => p.1 = k)).isSome
  then m.map (fun p => if p.1 = k then (k, v) else p)
  else m ++ [(k, v)]

/-- The accumulator of `identify`'s inner scoring loop. -/
structure RowAcc where
  total_score : Int := 0
  matched : List String := []
  mismatched : List String := []
  factors : Row := []
  evaluated : ℕ := 0

/-- The per-row field loop of `identify`: fold over the columns,
skipping `"Genus"`, counting evaluated fields, accumulating matches and
mismatches; `none` models the `-999` hard-exclusion break. -/
def scoreFields (row user : Row) : List String → RowAcc → Option RowAcc
  | [], acc => some acc
  | f :: rest, acc =>
    if f = "Genus" then scoreFields row user rest acc
    else
      let uv := lookupD user f ""
      let sc := compare_field (lookupD row f "") uv f
      let acc1 := if uv ≠ "" ∧ pyLower uv ≠ "unknown"
        then { acc with evaluated := acc.evaluated + 1 } else acc
      if sc = -999 then none
      else if sc = 1 then
        scoreFields row user rest { acc1 with
          total_score := acc1.total_score + 1,
          matched := acc1.matched ++ [f],
          factors := dictSet acc1.factors f uv }
      else if sc = -1 then
        scoreFields row user rest { acc1 with
          total_score := acc1.total_score - 1,
          mismatched := acc1.mismatched ++ [f] }
      else scoreFields row user rest acc1

/-- `len([c for c in db.columns if c != "Genus"])`. -/
def totalFieldsPossible (cols : List String) : ℕ :=
  (cols.filter (fun c => c ≠ "Genus")).length

/-- Score one reference row against the observation set; `none` when the
row is discarded (hard exclusion, or a score at the `-999` sentinel). -/
def scoreRow (cols : List String) (user row : Row) : Option IdentificationResult :=
  match scoreFields row user cols {} with
  | none => none
  | some acc =>
    if acc.total_score > -999 then
      some { genus := lookupD row "Genus" "",
             total_score := acc.total_score,
             matched_fields := acc.matched,
             mismatched_fields := acc.mismatched,
             reasoning_factors := acc.factors,
             total_fields_evaluated := acc.evaluated,
             total_fields_possible := totalFieldsPossible cols,
             extra_notes := lookupD row "Extra Notes" "" }
    else none

/-- The core scoring loop of `identify` over all rows. -/
def identifyCore (cols : List String) (rows : List Row) (user : Row) :
    List IdentificationResult :=
  rows.filterMap (scoreRow cols user)

/-- `suggest_next_tests`' candidate pool before shuffling: the code
appends `field` for every non-excluded column whenever the set of matched
and mismatched *field names* over the first three results has more than
one element — the loop body never consults `field`'s own status. -/
def suggest_pool (cols : List String) (top_results : List IdentificationResult) :
    List String :=
  if top_results.length < 2 then []
  else
    cols.filter (fun field =>
      field ∉ (["Genus", "Extra Notes", "Colony Morphology"] : List String) ∧
      (((top_results.take 3).map
        (fun r => r.matched_fields ++ r.mismatched_fields)).flatten.dedup.length > 1))

/-- `BacteriaIdentifier.suggest_next_tests`: shuffle the pool, keep 3. -/
def suggest_next_tests (shuffle : List String → List String)
    (cols : List String) (top_results : List IdentificationResult) : List String :=
  if top_results.length < 2 then []
  else (shuffle (suggest_pool cols top_results)).take 3

/-- Step 2 of `identify`: store the joined suggestions into the
`reasoning_factors` of the first three results. -/
def attachSuggestions (results : List IdentificationResult) (s : String) :
    List IdentificationResult :=
  (results.take 3).map (fun r =>
    { r with reasoning_factors := dictSet r.reasoning_factors "next_tests" s })
  ++ results.drop 3

/-- `_extract_extended_input`: keep the extended-schema fields whose user
value is Positive/Negative/Variable, capitalized. -/
def extractExtended (extFields : List String) (user : Row) : List (String × String) :=
  extFields.filterMap (fun f =>
    let val := lookupD user f "Unknown"
    if pyLower val ∈ (["positive", "negative", "variable"] : List String)
    then some (f, pyCapitalize val) else none)

/-- Step 3 of `identify`: attach per-genus extended likelihoods (absence
from the reasoner output maps to `none`). -/
noncomputable def attachExtended (extPairs : List (String × ℝ))
    (results : List IdentificationResult) : List IdentificationResult :=
  if extPairs = [] then
    results.map (fun r => { r with extended_likelihood := none })
  else
    results.map (fun r =>
      { r with extended_likelihood :=
          (extPairs.find? (fun p => p.1 = r.genus)).map (fun p => p.2) })

/-- Step 4 of `identify`: sort by blended confidence (descending) when any
extended likelihood is present, else by raw total score (descending). -/
noncomputable def sortResults (results : List IdentificationResult) :
    List IdentificationResult :=
  if results.any (fun r => r.extended_likelihood.isSome) then
    List.insertionSort (fun a b => blended_confidence_raw b ≤ blended_confidence_raw a)
      results
  else
    List.insertionSort (fun a b => b.total_score ≤ a.total_score) results

/-- `BacteriaIdentifier.identify`. -/
noncomputable def identify (cols : List String) (rows : List Row)
    (signals : Signals) (extFields : List String)
    (shuffle : List String → List String) (user : Row) :
    List IdentificationResult :=
  let results := identifyCore cols rows user
  if results.isEmpty then []
  else
    let withSuggestions := attachSuggestions results
      (String.intercalate ", " (suggest_next_tests shuffle cols results))
    let extInput := extractExtended extFields user
    let extPairs := if extInput = [] then []
      else score_genera_from_extended signals extInput 1
    (sortResults (attachExtended extPairs withSuggestions)).take 10

/-! ### Claim C1 -/

/-- If some non-Genus column of a row compares at `-999`, the field loop
aborts with `none`. -/
theorem scoreFields_none (row user : Row) (fields : List String) (acc : RowAcc)
    (h : ∃ f ∈ fields, f ≠ "Genus"
      ∧ compare_field (lookupD row f "") (lookupD user f "") f = -999) :
    scoreFields row user fields acc = none := by
  induction fields generalizing acc with
  | nil =>
    obtain ⟨f, hf, -⟩ := h
    exact absurd hf (List.not_mem_nil f)
  | cons f rest ih =>
    obtain ⟨f0, hf0, hg, hc⟩ := h
    rw [scoreFields]
    by_cases hfg : f = "Genus"
    · rw [if_pos hfg]
      rcases List.mem_cons.mp hf0 with heq | hmem
      · exact absurd (heq ▸ hfg) hg
      · exact ih _ ⟨f0, hmem, hg, hc⟩
    · rw [if_neg hfg]
      dsimp only
      rcases List.mem_cons.mp hf0 with heq | hmem
      · subst heq
        rw [if_pos hc]
      · by_cases hsc : compare_field (lookupD row f "") (lookupD user f "") f = -999
        · rw [if_pos hsc]
        · rw [if_neg hsc]
          split_ifs <;> exact ih _ ⟨f0, hmem, hg, hc⟩

/-- A row with a hard-excluded column is dropped entirely. -/
theorem scoreRow_none (cols : List String) (user row : Row)
    (h : ∃ f ∈ cols, f ≠ "Genus"
      ∧ compare_field (lookupD row f "") (lookupD user f "") f = -999) :
    scoreRow cols user row = none := by
  unfold scoreRow
  rw [scoreFields_none row user cols {} h]

/-- A surviving result carries its row's Genus cell. -/
theorem scoreRow_genus (cols : List String) (user row : Row)
    (r : IdentificationResult) (h : scoreRow cols user row = some r) :
    r.genus = lookupD row "Genus" "" := by
  unfold scoreRow at h
  rcases hsf : scoreFields row user cols {} with - | acc
  · rw [hsf] at h
    exact Option.noConfusion h
  · rw [hsf] at h
    dsimp only at h
    split at h
    · rw [← Option.some.injEq] at h
      cases h
      rfl
    · exact Option.noConfusion h

/-- No result of the core loop carries a genus all of whose rows are
hard-excluded. -/
theorem identifyCore_genus_not_mem (cols : List String) (rows : List Row)
    (user : Row) (g : String)
    (hg : ∀ row ∈ rows, lookupD row "Genus" "" = g →
      ∃ f ∈ cols, f ≠ "Genus"
        ∧ compare_field (lookupD row f "") (lookupD user f "") f = -999) :
    g ∉ (identifyCore cols rows user).map (fun r => r.genus) := by
  intro hmem
  rw [List.mem_map] at hmem
  obtain ⟨r, hr, hrg⟩ := hmem
  rw [identifyCore, List.mem_filterMap] at hr
  obtain ⟨row, hrow, hsome⟩ := hr
  have hgen := scoreRow_genus cols user row r hsome
  have hex := hg row hrow (by rw [← hgen, hrg])
  rw [scoreRow_none cols user row hex] at hsome
  exact Option.noConfusion hsome

theorem attachSuggestions_map_genus (results : List IdentificationResult)
    (s : String) :
    (attachSuggestions results s).map (fun r => r.genus)
      = results.map (fun r => r.genus) := by
  unfold attachSuggestions
  rw [List.map_append, List.map_map]
  have h : ((fun r : IdentificationResult => r.genus) ∘ (fun r =>
      { r with reasoning_factors := dictSet r.reasoning_factors "next_tests" s }))
      = fun r : IdentificationResult => r.genus := rfl
  rw [h, ← List.map_append, List.take_append_drop]

theorem attachExtended_map_genus (extPairs : List (String × ℝ))
    (results : List IdentificationResult) :
    (attachExtended extPairs results).map (fun r => r.genus)
      = results.map (fun r => r.genus) := by
  unfold attachExtended
  split <;> rw [List.map_map] <;> rfl

theorem sortResults_perm (results : List IdentificationResult) :
    (sortResults results).Perm results := by
  unfold sortResults
  split <;> exact List.perm_insertionSort _ _

theorem mem_map_of_mem_take {α β : Type} (f : α → β) (n : ℕ) (l : List α)
    {b : β} (h : b ∈ (l.take n).map f) : b ∈ l.map f :=
  ((List.take_sublist n l).map f).mem h

theorem mem_map_genus_sortResults {l : List IdentificationResult} {b : String}
    (h : b ∈ (sortResults l).map (fun r => r.genus)) :
    b ∈ l.map (fun r => r.genus) :=
  ((sortResults_perm l).map _).mem_iff.mp h

/-- Claim C1: if `compare_field` returns the hard exclusion code `-999`
on some non-Genus column of every row bearing genus `g`, then `g` is
absent from the candidate list returned by `identify`, regardless of other
field agreement. -/
theorem C1_hard_exclusion_discards (cols : List String) (rows : List Row)
    (signals : Signals) (extFields : List String)
    (shuffle : List String → List String) (user : Row) (g : String)
    (hg : ∀ row ∈ rows, lookupD row "Genus" "" = g →
      ∃ f ∈ cols, f ≠ "Genus"
        ∧ compare_field (lookupD row f "") (lookupD user f "") f = -999) :
    g ∉ (identify cols rows signals extFields shuffle user).map (fun r => r.genus) := by
  have hcore := identifyCore_genus_not_mem cols rows user g hg
  intro hmem
  unfold identify at hmem
  dsimp only at hmem
  by_cases hres : (identifyCore cols rows user).isEmpty = true
  · rw [if_pos hres] at hmem
    simp at hmem
  · rw [if_neg hres] at hmem
    apply hcore
    have h1 := mem_map_of_mem_take _ _ _ hmem
    have h2 := mem_map_genus_sortResults h1
    rw [attachExtended_map_genus, attachSuggestions_map_genus] at h2
    exact h2

/-- A one-genus reference table whose Gram Stain contradicts the query. -/
def rowsC1 : List Row :=
  [[("Genus", "Bacillus"), ("Gram Stain", "Positive"), ("Catalase", "Positive")]]

/-- Columns of the C1 witness table. -/
def colsC1 : List String := ["Genus", "Gram Stain", "Catalase"]

/-- Witness for C1: catalase agrees, Gram stain contradicts — the genus
is gone from the result list. -/
theorem C1_hard_exclusion_discards_witness :
    "Bacillus" ∉ (identify colsC1 rowsC1 [] [] id
      [("Gram Stain", "Negative"), ("Catalase", "Positive")]).map
        (fun r => r.genus) :=
  C1_hard_exclusion_discards colsC1 rowsC1 [] [] id
    [("Gram Stain", "Negative"), ("Catalase", "Positive")] "Bacillus"
    (by decide)

/-! ### Claim C3 -/

/-- Matched/mismatched status of a field for one candidate:
0 = matched, 1 = mismatched, 2 = neither. -/
def statusOf (r : IdentificationResult) (f : String) : ℕ :=
  if f ∈ r.matched_fields then 0 else if f ∈ r.mismatched_fields then 1 else 2

/-- The field set described by the spec for C3 (for comparison with the
code): non-identifier, non-notes, non-colony-morphology fields whose
matched/mismatched status differs across the given top results. -/
def specDiscriminatingFields (cols : List String)
    (top3 : List IdentificationResult) : List String :=
  cols.filter (fun f =>
    f ∉ (["Genus", "Extra Notes", "Colony Morphology"] : List String) ∧
    ∃ r1 ∈ top3, ∃ r2 ∈ top3, statusOf r1 f ≠ statusOf r2 f)

/-- Two candidates for the C3 failing input. -/
def r1C3 : IdentificationResult :=
  { genus := "Alpha", total_score := 1, matched_fields := ["Catalase"],
    mismatched_fields := [], reasoning_factors := [],
    total_fields_evaluated := 1, total_fields_possible := 3 }

/-- Second candidate for the C3 failing input. -/
def r2C3 : IdentificationResult :=
  { genus := "Beta", total_score := 1, matched_fields := ["Oxidase"],
    mismatched_fields := [], reasoning_factors := [],
    total_fields_evaluated := 1, total_fields_possible := 3 }

/-- Columns of the C3 failing input. -/
def colsC3 : List String := ["Genus", "Catalase", "Oxidase", "Urease"]

/-- Claim C3, failing input: the suggestion loop ignores the per-field
status entirely (its set is built from the matched/mismatched *field
names* of the leading results), so `Urease` — on which every candidate has
the same status (neither matched nor mismatched) — is still suggested. -/
theorem C3_suggestions_include_nondiscriminating_field :
    "Urease" ∈ suggest_next_tests id colsC3 [r1C3, r2C3]
    ∧ "Urease" ∉ specDiscriminatingFields colsC3 ([r1C3, r2C3].take 3)
    ∧ (∀ ra ∈ [r1C3, r2C3].take 3, ∀ rb ∈ [r1C3, r2C3].take 3,
        statusOf ra "Urease" = statusOf rb "Urease") :=
  ⟨by decide, by decide, by decide⟩

/-! ## Training pass (`training/gold_trainer.py`, `train_from_gold`)

The trainer mutates three JSON artifacts; file I/O is modelled as a pure
state-to-state function.  The alias maps are read and written back without
modification by this routine.  The `media_aliases` table and the returned
summary dict are not consulted by any claim and are not modelled. -/

/-- One extended-schema registry entry.  A file-loaded entry without an
`"aliases"` key behaves as an empty alias list (`get("aliases", [])` /
`setdefault("aliases", [])`), so the list is non-optional here. -/
structure SchemaEntry where
  value_type : String
  status : String
  aliases : List String
deriving DecidableEq

/-- The extended-schema registry, in insertion order. -/
abbrev Schema := List (String × SchemaEntry)

/-- Key lookup in the registry (`canon in ext_schema` / `ext_schema[canon]`). -/
def lookupS : Schema → String → Option SchemaEntry
  | [], _ => none
  | p :: ps, k => if p.1 = k then some p.2 else lookupS ps k

/-- In-place value update at a key (dict assignment on an existing key,
order preserved). -/
def updateS : Schema → String → SchemaEntry → Schema
  | [], _, _ => []
  | p :: ps, k, e => if p.1 = k then (k, e) :: updateS ps k e else p :: updateS ps k e

/-- `canon_field_name(name, field_aliases)`: strip, then first
case-insensitive alias hit, else the stripped name. -/
def canon_field_name (name : String) (fa : List (String × String)) : String :=
  let n := pyStrip name
  match fa.find? (fun p => pyLower n = pyLower p.1) with
  | some p => p.2
  | none => n

/-- `canon_value_pnv(val, value_aliases)`: strip, exact lowercase alias
hit, else capitalize fully-spelled positive/negative/variable, else the
stripped value.  (The `val is None` branch never arises for strings.) -/
def canon_value_pnv (val : String) (va : List (String × String)) : String :=
  let v := pyStrip val
  let low := pyLower v
  match va.find? (fun p => low = p.1) with
  | some p => p.2
  | none =>
    if low ∈ (["positive", "negative", "variable"] : List String)
    then pyCapitalize v else v

/-- The `CORE_FIELDS_HINT` list, verbatim. -/
def CORE_FIELDS_HINT : List String :=
  ["Genus", "Species", "Gram Stain", "Shape", "Colony Morphology", "Haemolysis",
   "Haemolysis Type", "Motility", "Capsule", "Spore Formation", "Growth Temperature",
   "Oxygen Requirement", "Media Grown On", "Catalase", "Oxidase", "Coagulase",
   "DNase", "Urease", "Citrate", "Methyl Red", "VP", "H2S", "ONPG",
   "Nitrate Reduction", "Lipase Test", "NaCl Tolerant (>=6%)",
   "Lysine Decarboxylase", "Ornitihine Decarboxylase", "Arginine dihydrolase",
   "Gelatin Hydrolysis", "Esculin Hydrolysis", "Glucose Fermentation",
   "Lactose Fermentation", "Sucrose Fermentation", "Mannitol Fermentation",
   "Sorbitol Fermentation", "Maltose Fermentation", "Xylose Fermentation",
   "Rhamnose Fermentation", "Arabinose Fermentation", "Raffinose Fermentation",
   "Trehalose Fermentation", "Inositol Fermentation", "Extra Notes"]

/-- `is_core_schema(field)`. -/
def is_core_schema (field : String) : Prop := field ∈ CORE_FIELDS_HINT

instance (f : String) : Decidable (is_core_schema f) :=
  inferInstanceAs (Decidable (f ∈ CORE_FIELDS_HINT))

/-- One proposal-log record (`rec.get("type","")`, `rec.get("field","")`). -/
structure ProposalRec where
  rtype : String
  field : String
deriving DecidableEq

/-- Step 1 of the trainer: fold one proposal record into the registry. -/
def procProposal (fa : List (String × String)) (schema : Schema)
    (rec : ProposalRec) : Schema :=
  if rec.field = "" then schema
  else
    let canon := canon_field_name rec.field fa
    if rec.rtype = "expected_field_not_in_schema" ∨ rec.rtype = "unknown_field" then
      if is_core_schema canon then schema
      else
        match lookupS schema canon with
        | none => schema ++ [(canon,
            { value_type := "enum_PNV", status := "experimental",
              aliases := if rec.field = canon then [] else [rec.field] })]
        | some e =>
          if rec.field ≠ canon ∧ rec.field ∉ e.aliases then
            updateS schema canon { e with aliases := e.aliases ++ [rec.field] }
          else schema
    else schema

/-- One labeled case (`{name, expected}`). -/
structure GoldCase where
  name : String
  expected : List (String × String)
deriving DecidableEq

/-- `name.split()[0] if name else ""`.  Python raises `IndexError` when
the name is non-empty but whitespace-only; that crash case is modelled
with default `""` and excluded by `NameOk` in the theorems. -/
def genusKey (name : String) : String :=
  if name = "" then "" else (pyTokens name).headD ""

/-- Names on which `genusKey` is faithful (no `IndexError`). -/
def NameOk (name : String) : Prop := name = "" ∨ pyTokens name ≠ []

instance (n : String) : Decidable (NameOk n) :=
  inferInstanceAs (Decidable (n = "" ∨ pyTokens n ≠ []))

/-- `signals.setdefault(g, {}).setdefault(t, zeros)`. -/
def sigEnsure (s : Signals) (g t : String) : Signals :=
  match s.find? (fun p => p.1 = g) with
  | none => s ++ [(g, [(t, { pos := 0, neg := 0, var := 0, nOpt := some 0 })])]
  | some _ => s.map (fun p =>
      if p.1 = g then
        (p.1, match p.2.find? (fun q => q.1 = t) with
              | none => p.2 ++ [(t, { pos := 0, neg := 0, var := 0, nOpt := some 0 })]
              | some _ => p.2)
      else p)

/-- `stats[vc] += 1; stats["_n"] += 1`.  A pre-existing record missing
the incremented key would raise `KeyError` in Python; records created by
`sigEnsure` always carry all four keys.  Missing keys default to 0. -/
def bumpStat (st : SigStats) (vc : String) : SigStats :=
  let st1 := if vc = "Positive" then { st with pos := st.pos + 1 }
    else if vc = "Negative" then { st with neg := st.neg + 1 }
    else { st with var := st.var + 1 }
  { st1 with nOpt := some (st1.nOpt.getD 0 + 1) }

/-- `signals[g][t][vc] += 1; signals[g][t]["_n"] += 1`. -/
def sigBump (s : Signals) (g t vc : String) : Signals :=
  s.map (fun p =>
    if p.1 = g then
      (p.1, p.2.map (fun q => if q.1 = t then (q.1, bumpStat q.2 vc) else q))
    else p)

/-- Step 2 of the trainer, one `(field, value)` pair of one case:
register the field if new, then accumulate evidence counts. -/
def procExpectedPair (fa va : List (String × String)) (genus : String)
    (st : Schema × Signals) (kv : String × String) : Schema × Signals :=
  let ck := canon_field_name kv.1 fa
  if is_core_schema ck then st
  else
    let schema1 := match lookupS st.1 ck with
      | none => st.1 ++ [(ck,
          { value_type := "enum_PNV", status := "experimental",
            aliases := if kv.1 ≠ ck then [kv.1] else [] })]
      | some _ => st.1
    let vc := canon_value_pnv kv.2 va
    let sg1 := sigEnsure st.2 genus ck
    (schema1, if vc ∈ PNVconst then sigBump sg1 genus ck vc else sg1)

/-- Step 2 of the trainer, one case. -/
def procCase (fa va : List (String × String)) (st : Schema × Signals)
    (c : GoldCase) : Schema × Signals :=
  c.expected.foldl (procExpectedPair fa va (genusKey c.name)) st

/-- The three learned artifacts the trainer reads and writes. -/
structure TrainState where
  ext_schema : Schema
  field_aliases : List (String × String)
  value_aliases : List (String × String)
  signals : Signals
deriving DecidableEq

/-- `train_from_gold()`: proposals pass, then labeled-case pass; the
alias maps are written back unchanged. -/
def train_from_gold (s : TrainState) (proposals : List ProposalRec)
    (tests : List GoldCase) : TrainState :=
  let schema1 := proposals.foldl (procProposal s.field_aliases) s.ext_schema
  let res := tests.foldl (procCase s.field_aliases s.value_aliases) (schema1, s.signals)
  { ext_schema := res.1, field_aliases := s.field_aliases,
    value_aliases := s.value_aliases, signals := res.2 }

/-- The sum of the `"_n"` entries of one genus's test map. -/
def innerSum (m : List (String × SigStats)) : ℕ :=
  (m.map (fun q => q.2.nOpt.getD 0)).sum

/-- Total evidence mass of the catalog: the sum of all `"_n"` entries. -/
def totalN (sg : Signals) : ℕ :=
  (sg.map (fun p => innerSum p.2)).sum

/-! ### Claim C9, schema side: the registry grows monotonically and the
updates are saturating, hence a second identical run is the identity. -/

/-- Registry extension order: every present key stays present and its
alias list only grows. -/
def schemaLe (s t : Schema) : Prop :=
  ∀ k e, lookupS s k = some e →
    ∃ e2, lookupS t k = some e2 ∧ ∀ a ∈ e.aliases, a ∈ e2.aliases

theorem schemaLe_refl (s : Schema) : schemaLe s s :=
  fun _ e h => ⟨e, h, fun _ ha => ha⟩

theorem schemaLe_trans {s t u : Schema} (h1 : schemaLe s t) (h2 : schemaLe t u) :
    schemaLe s u := by
  intro k e he
  obtain ⟨e2, he2, hsub⟩ := h1 k e he
  obtain ⟨e3, he3, hsub2⟩ := h2 k e2 he2
  exact ⟨e3, he3, fun a ha => hsub2 a (hsub a ha)⟩

theorem lookupS_append (s : Schema) (x : String × SchemaEntry) (k : String) :
    lookupS (s ++ [x]) k = (lookupS s k).or (lookupS [x] k) := by
  induction s with
  | nil => simp [lookupS]
  | cons p ps ih =>
    rw [List.cons_append, lookupS, lookupS]
    by_cases hpk : p.1 = k
    · simp [hpk]
    · simp [hpk, ih]

theorem schemaLe_append (s : Schema) (x : String × SchemaEntry) :
    schemaLe s (s ++ [x]) := by
  intro k e he
  refine ⟨e, ?_, fun _ ha => ha⟩
  rw [lookupS_append, he]
  rfl

theorem lookupS_updateS (s : Schema) (k k2 : String) (e2 : SchemaEntry) :
    lookupS (updateS s k e2) k2
      = (lookupS s k2).map (fun e => if k2 = k then e2 else e) := by
  induction s with
  | nil => rfl
  | cons p ps ih =>
    rw [lookupS, updateS]
    by_cases hpk : p.1 = k
    · rw [if_pos hpk, lookupS]
      by_cases hk2 : k2 = k
      · subst hk2
        simp [hpk]
      · have h2 : ¬ (k = k2) := fun h => hk2 h.symm
        have h1 : ¬ (p.1 = k2) := by
          rw [hpk]
          exact h2
        simp only [if_neg h2, if_neg h1, ih]
    · rw [if_neg hpk, lookupS]
      by_cases hp2 : p.1 = k2
      · have h1 : ¬ (k2 = k) := fun h => hpk (by rw [hp2, h])
        simp [hp2, h1]
      · simp only [if_neg hp2, ih]

theorem schemaLe_updateS_append_alias (s : Schema) (k f : String)
    (e : SchemaEntry) (he : lookupS s k = some e) :
    schemaLe s (updateS s k { e with aliases := e.aliases ++ [f] }) := by
  intro k2 e2 he2
  rw [lookupS_updateS, he2]
  by_cases hk : k2 = k
  · subst hk
    obtain rfl : e = e2 := Option.some.inj (he.symm.trans he2)
    refine ⟨{ e with aliases := e.aliases ++ [f] }, by simp, ?_⟩
    intro a ha
    simp only [List.mem_append]
    exact Or.inl ha
  · exact ⟨e2, by simp [hk], fun _ ha => ha⟩

/-- A proposal record that the registry already fully accounts for. -/
def propSaturated (fa : List (String × String)) (schema : Schema)
    (rec : ProposalRec) : Prop :=
  rec.field = ""
  ∨ ¬(rec.rtype = "expected_field_not_in_schema" ∨ rec.rtype = "unknown_field")
  ∨ is_core_schema (canon_field_name rec.field fa)
  ∨ ∃ e, lookupS schema (canon_field_name rec.field fa) = some e
      ∧ (rec.field = canon_field_name rec.field fa ∨ rec.field ∈ e.aliases)

/-- A case field that the registry already accounts for. -/
def pairSaturated (fa : List (String × String)) (schema : Schema)
    (k : String) : Prop :=
  is_core_schema (canon_field_name k fa)
  ∨ ∃ e, lookupS schema (canon_field_name k fa) = some e

theorem propSaturated_mono {fa : List (String × String)} {s t : Schema}
    {rec : ProposalRec} (hle : schemaLe s t) (h : propSaturated fa s rec) :
    propSaturated fa t rec := by
  rcases h with h | h | h | ⟨e, he, hcase⟩
  · exact Or.inl h
  · exact Or.inr (Or.inl h)
  · exact Or.inr (Or.inr (Or.inl h))
  · obtain ⟨e2, he2, hsub⟩ := hle _ e he
    refine Or.inr (Or.inr (Or.inr ⟨e2, he2, ?_⟩))
    rcases hcase with hc | hc
    · exact Or.inl hc
    · exact Or.inr (hsub _ hc)

theorem pairSaturated_mono {fa : List (String × String)} {s t : Schema}
    {k : String} (hle : schemaLe s t) (h : pairSaturated fa s k) :
    pairSaturated fa t k := by
  rcases h with h | ⟨e, he⟩
  · exact Or.inl h
  · obtain ⟨e2, he2, -⟩ := hle _ e he
    exact Or.inr ⟨e2, he2⟩

theorem procProposal_le (fa : List (String × String)) (s : Schema)
    (rec : ProposalRec) : schemaLe s (procProposal fa s rec) := by
  unfold procProposal
  split
  · exact schemaLe_refl s
  · dsimp only
    split
    · split
      · exact schemaLe_refl s
      · split
        · exact schemaLe_append s _
        · rename_i e heq
          split
          · exact schemaLe_updateS_append_alias s _ rec.field e heq
          · exact schemaLe_refl s
    · exact schemaLe_refl s

theorem lookupS_append_self (s : Schema) (k : String) (e : SchemaEntry)
    (hnone : lookupS s k = none) : lookupS (s ++ [(k, e)]) k = some e := by
  rw [lookupS_append, hnone]
  simp [lookupS]

theorem procProposal_saturates (fa : List (String × String)) (s : Schema)
    (rec : ProposalRec) : propSaturated fa (procProposal fa s rec) rec := by
  unfold procProposal
  split
  · exact Or.inl (by assumption)
  · dsimp only
    split
    · split
      · exact Or.inr (Or.inr (Or.inl (by assumption)))
      · split
        · rename_i heq
          refine Or.inr (Or.inr (Or.inr
            ⟨{ value_type := "enum_PNV", status := "experimental",
               aliases := if rec.field = canon_field_name rec.field fa
                 then [] else [rec.field] },
             lookupS_append_self s _ _ heq, ?_⟩))
          by_cases hfc : rec.field = canon_field_name rec.field fa
          · exact Or.inl hfc
          · refine Or.inr ?_
            simp only [if_neg hfc]
            exact List.mem_singleton.mpr rfl
        · rename_i e heq
          split
          · refine Or.inr (Or.inr (Or.inr
              ⟨{ e with aliases := e.aliases ++ [rec.field] }, ?_, ?_⟩))
            · rw [lookupS_updateS, heq]
              simp
            · refine Or.inr ?_
              simp
          · rename_i hneg
            rw [not_and_or, not_not, not_not] at hneg
            exact Or.inr (Or.inr (Or.inr ⟨e, heq, hneg⟩))
    · exact Or.inr (Or.inl (by assumption))

theorem procProposal_id_of_saturated (fa : List (String × String)) (s : Schema)
    (rec : ProposalRec) (h : propSaturated fa s rec) :
    procProposal fa s rec = s := by
  unfold procProposal
  split
  · rfl
  · rename_i hfield
    dsimp only
    split
    · rename_i hrtype
      split
      · rfl
      · rename_i hcore
        rcases h with h | h | h | ⟨e, he, hcase⟩
        · exact absurd h hfield
        · exact absurd hrtype h
        · exact absurd h hcore
        · split
          · rename_i heq
            rw [heq] at he
            exact Option.noConfusion he
          · rename_i e2 heq
            rw [heq] at he
            obtain rfl : e2 = e := Option.some.inj he
            rw [if_neg (by
              rw [not_and_or, not_not, not_not]
              exact hcase)]
    · rfl

/-! ### Claim C9, schema side: the expected-pair pass -/

theorem procExpectedPair_le (fa va : List (String × String)) (g : String)
    (st : Schema × Signals) (kv : String × String) :
    schemaLe st.1 (procExpectedPair fa va g st kv).1 := by
  unfold procExpectedPair
  dsimp only
  split
  · exact schemaLe_refl _
  · dsimp only
    split
    · exact schemaLe_append _ _
    · exact schemaLe_refl _

theorem procExpectedPair_saturates (fa va : List (String × String)) (g : String)
    (st : Schema × Signals) (kv : String × String) :
    pairSaturated fa (procExpectedPair fa va g st kv).1 kv.1 := by
  unfold procExpectedPair
  dsimp only
  split
  · exact Or.inl (by assumption)
  · dsimp only
    split
    · rename_i heq
      exact Or.inr ⟨_, lookupS_append_self st.1 _ _ heq⟩
    · rename_i e heq
      exact Or.inr ⟨e, heq⟩

theorem procExpectedPair_id_schema (fa va : List (String × String)) (g : String)
    (st : Schema × Signals) (kv : String × String)
    (h : pairSaturated fa st.1 kv.1) :
    (procExpectedPair fa va g st kv).1 = st.1 := by
  unfold procExpectedPair
  dsimp only
  split
  · rfl
  · rename_i hcore
    dsimp only
    rcases h with h | ⟨e, he⟩
    · exact absurd h hcore
    · split
      · rename_i heq
        rw [heq] at he
        exact Option.noConfusion he
      · rfl

theorem pairsFold_le (fa va : List (String × String)) (g : String)
    (kvs : List (String × String)) (st : Schema × Signals) :
    schemaLe st.1 (kvs.foldl (procExpectedPair fa va g) st).1 := by
  induction kvs generalizing st with
  | nil => exact schemaLe_refl _
  | cons kv rest ih =>
    rw [List.foldl_cons]
    exact schemaLe_trans (procExpectedPair_le fa va g st kv) (ih _)

theorem pairsFold_sat (fa va : List (String × String)) (g : String)
    (kvs : List (String × String)) (st : Schema × Signals) :
    ∀ kv ∈ kvs, pairSaturated fa ((kvs.foldl (procExpectedPair fa va g) st).1) kv.1 := by
  induction kvs generalizing st with
  | nil =>
    intro kv h
    exact absurd h (List.not_mem_nil kv)
  | cons kv0 rest ih =>
    intro kv hkv
    rw [List.foldl_cons]
    rcases List.mem_cons.mp hkv with rfl | hmem
    · exact pairSaturated_mono (pairsFold_le fa va g rest _)
        (procExpectedPair_saturates fa va g st kv)
    · exact ih _ kv hmem

theorem pairsFold_id_schema (fa va : List (String × String)) (g : String)
    (kvs : List (String × String)) (st : Schema × Signals)
    (h : ∀ kv ∈ kvs, pairSaturated fa st.1 kv.1) :
    (kvs.foldl (procExpectedPair fa va g) st).1 = st.1 := by
  induction kvs generalizing st with
  | nil => rfl
  | cons kv rest ih =>
    rw [List.foldl_cons]
    have hid := procExpectedPair_id_schema fa va g st kv (h kv (by simp))
    have hrest := ih (procExpectedPair fa va g st kv)
      (fun kv2 hm => by
        rw [hid]
        exact h kv2 (by simp [hm]))
    rw [hrest, hid]

theorem procCase_le (fa va : List (String × String)) (st : Schema × Signals)
    (c : GoldCase) : schemaLe st.1 (procCase fa va st c).1 :=
  pairsFold_le fa va (genusKey c.name) c.expected st

theorem procCase_sat (fa va : List (String × String)) (st : Schema × Signals)
    (c : GoldCase) :
    ∀ kv ∈ c.expected, pairSaturated fa ((procCase fa va st c).1) kv.1 :=
  pairsFold_sat fa va (genusKey c.name) c.expected st

theorem procCase_id_schema (fa va : List (String × String)) (st : Schema × Signals)
    (c : GoldCase) (h : ∀ kv ∈ c.expected, pairSaturated fa st.1 kv.1) :
    (procCase fa va st c).1 = st.1 :=
  pairsFold_id_schema fa va (genusKey c.name) c.expected st h

theorem testsFold_le (fa va : List (String × String)) (tests : List GoldCase)
    (st : Schema × Signals) :
    schemaLe st.1 (tests.foldl (procCase fa va) st).1 := by
  induction tests generalizing st with
  | nil => exact schemaLe_refl _
  | cons c rest ih =>
    rw [List.foldl_cons]
    exact schemaLe_trans (procCase_le fa va st c) (ih _)

theorem testsFold_sat (fa va : List (String × String)) (tests : List GoldCase)
    (st : Schema × Signals) :
    ∀ c ∈ tests, ∀ kv ∈ c.expected,
      pairSaturated fa ((tests.foldl (procCase fa va) st).1) kv.1 := by
  induction tests generalizing st with
  | nil =>
    intro c h
    exact absurd h (List.not_mem_nil c)
  | cons c0 rest ih =>
    intro c hc kv hkv
    rw [List.foldl_cons]
    rcases List.mem_cons.mp hc with rfl | hmem
    · exact pairSaturated_mono (testsFold_le fa va rest _)
        (procCase_sat fa va st c kv hkv)
    · exact ih _ c hmem kv hkv

theorem testsFold_id_schema (fa va : List (String × String))
    (tests : List GoldCase) (st : Schema × Signals)
    (h : ∀ c ∈ tests, ∀ kv ∈ c.expected, pairSaturated fa st.1 kv.1) :
    (tests.foldl (procCase fa va) st).1 = st.1 := by
  induction tests generalizing st with
  | nil => rfl
  | cons c rest ih =>
    rw [List.foldl_cons]
    have hid := procCase_id_schema fa va st c (h c (by simp))
    have hrest := ih (procCase fa va st c)
      (fun c2 hm kv hkv => by
        rw [hid]
        exact h c2 (by simp [hm]) kv hkv)
    rw [hrest, hid]

theorem propsFold_le (fa : List (String × String)) (P : List ProposalRec)
    (s : Schema) : schemaLe s (P.foldl (procProposal fa) s) := by
  induction P generalizing s with
  | nil => exact schemaLe_refl _
  | cons rec0 rest ih =>
    rw [List.foldl_cons]
    exact schemaLe_trans (procProposal_le fa s rec0) (ih _)

theorem propsFold_sat (fa : List (String × String)) (P : List ProposalRec)
    (s : Schema) :
    ∀ rec0 ∈ P, propSaturated fa (P.foldl (procProposal fa) s) rec0 := by
  induction P generalizing s with
  | nil =>
    intro rec0 h
    exact absurd h (List.not_mem_nil rec0)
  | cons rec1 rest ih =>
    intro rec0 hrec
    rw [List.foldl_cons]
    rcases List.mem_cons.mp hrec with rfl | hmem
    · exact propSaturated_mono (propsFold_le fa rest _)
        (procProposal_saturates fa s rec0)
    · exact ih _ rec0 hmem

theorem propsFold_id (fa : List (String × String)) (P : List ProposalRec)
    (s : Schema) (h : ∀ rec0 ∈ P, propSaturated fa s rec0) :
    P.foldl (procProposal fa) s = s := by
  induction P generalizing s with
  | nil => rfl
  | cons rec0 rest ih =>
    rw [List.foldl_cons]
    have hid := procProposal_id_of_saturated fa s rec0 (h rec0 (by simp))
    have hrest := ih s (fun r2 hm => h r2 (by simp [hm]))
    rw [hid, hrest]

/-! ### Claim C9, count side: the evidence mass never decreases, and
every applicable pair strictly increases it. -/

theorem bumpStat_getD (st : SigStats) (vc : String) :
    (bumpStat st vc).nOpt.getD 0 = st.nOpt.getD 0 + 1 := by
  unfold bumpStat
  dsimp only
  split_ifs <;> rfl

theorem sum_succ_of_exists {α : Type} (l : List α) (f f2 : α → ℕ)
    (hle : ∀ x ∈ l, f x ≤ f2 x)
    (hstrict : ∃ x ∈ l, f x + 1 ≤ f2 x) :
    (l.map f).sum + 1 ≤ (l.map f2).sum := by
  induction l with
  | nil =>
    obtain ⟨x, hx, -⟩ := hstrict
    exact absurd hx (List.not_mem_nil x)
  | cons a as ih =>
    rw [List.map_cons, List.map_cons, List.sum_cons, List.sum_cons]
    obtain ⟨x, hx, hsx⟩ := hstrict
    rcases List.mem_cons.mp hx with rfl | hmem
    · have h2 : (as.map f).sum ≤ (as.map f2).sum :=
        List.sum_le_sum (fun i hi => hle i (by simp [hi]))
      omega
    · have h1 := hle a (by simp)
      have h2 := ih (fun i hi => hle i (by simp [hi])) ⟨x, hmem, hsx⟩
      omega

theorem innerSum_bump_le (m : List (String × SigStats)) (t vc : String) :
    innerSum m
      ≤ innerSum (m.map (fun q => if q.1 = t then (q.1, bumpStat q.2 vc) else q)) := by
  unfold innerSum
  rw [List.map_map]
  apply List.sum_le_sum
  intro q hq
  dsimp only [Function.comp]
  by_cases hqt : q.1 = t
  · rw [if_pos hqt, bumpStat_getD]
    omega
  · rw [if_neg hqt]

theorem innerSum_bump_succ (m : List (String × SigStats)) (t vc : String)
    (h : ∃ q ∈ m, q.1 = t) :
    innerSum m + 1
      ≤ innerSum (m.map (fun q => if q.1 = t then (q.1, bumpStat q.2 vc) else q)) := by
  unfold innerSum
  rw [List.map_map]
  apply sum_succ_of_exists
  · intro q hq
    dsimp only [Function.comp]
    by_cases hqt : q.1 = t
    · rw [if_pos hqt, bumpStat_getD]
      omega
    · rw [if_neg hqt]
  · obtain ⟨q, hq, hqt⟩ := h
    refine ⟨q, hq, ?_⟩
    dsimp only [Function.comp]
    rw [if_pos hqt, bumpStat_getD]

theorem totalN_sigBump_le (sg : Signals) (g t vc : String) :
    totalN sg ≤ totalN (sigBump sg g t vc) := by
  unfold sigBump totalN
  rw [List.map_map]
  apply List.sum_le_sum
  intro p hp
  dsimp only [Function.comp]
  by_cases hpg : p.1 = g
  · rw [if_pos hpg]
    exact innerSum_bump_le p.2 t vc
  · rw [if_neg hpg]

theorem totalN_sigBump_succ (sg : Signals) (g t vc : String)
    (h : ∃ p ∈ sg, p.1 = g ∧ ∃ q ∈ p.2, q.1 = t) :
    totalN sg + 1 ≤ totalN (sigBump sg g t vc) := by
  unfold sigBump totalN
  rw [List.map_map]
  apply sum_succ_of_exists
  · intro p hp
    dsimp only [Function.comp]
    by_cases hpg : p.1 = g
    · rw [if_pos hpg]
      exact innerSum_bump_le p.2 t vc
    · rw [if_neg hpg]
  · obtain ⟨p, hp, hpg, hq⟩ := h
    refine ⟨p, hp, ?_⟩
    dsimp only [Function.comp]
    rw [if_pos hpg]
    exact innerSum_bump_succ p.2 t vc hq

theorem totalN_sigEnsure (sg : Signals) (g t : String) :
    totalN (sigEnsure sg g t) = totalN sg := by
  unfold sigEnsure
  split
  · simp [totalN, innerSum]
  · unfold totalN
    rw [List.map_map]
    refine congrArg List.sum (List.map_congr_left ?_)
    intro p hp
    dsimp only [Function.comp]
    by_cases hpg : p.1 = g
    · rw [if_pos hpg]
      dsimp only
      split
      · simp [innerSum]
      · rfl
    · rw [if_neg hpg]

theorem sigEnsure_exists (sg : Signals) (g t : String) :
    ∃ p ∈ sigEnsure sg g t, p.1 = g ∧ ∃ q ∈ p.2, q.1 = t := by
  unfold sigEnsure
  split
  · exact ⟨(g, [(t, { pos := 0, neg := 0, var := 0, nOpt := some 0 })]),
      List.mem_append_right _ (by simp), rfl,
      (t, { pos := 0, neg := 0, var := 0, nOpt := some 0 }), by simp, rfl⟩
  · rename_i p0 hfind
    have hp0mem := List.mem_of_find?_eq_some hfind
    have hp0g : p0.1 = g := by simpa using List.find?_some hfind
    refine ⟨_, List.mem_map_of_mem _ hp0mem, ?_⟩
    dsimp only
    rw [if_pos hp0g]
    refine ⟨hp0g, ?_⟩
    split
    · exact ⟨(t, { pos := 0, neg := 0, var := 0, nOpt := some 0 }),
        List.mem_append_right _ (by simp), rfl⟩
    · rename_i q0 hfind2
      exact ⟨q0, List.mem_of_find?_eq_some hfind2,
        by simpa using List.find?_some hfind2⟩

theorem procExpectedPair_totalN_le (fa va : List (String × String)) (g : String)
    (st : Schema × Signals) (kv : String × String) :
    totalN st.2 ≤ totalN (procExpectedPair fa va g st kv).2 := by
  unfold procExpectedPair
  dsimp only
  split
  · exact le_refl _
  · dsimp only
    split
    · calc totalN st.2
          = totalN (sigEnsure st.2 g (canon_field_name kv.1 fa)) :=
            (totalN_sigEnsure st.2 g _).symm
        _ ≤ _ := totalN_sigBump_le _ g _ _
    · rw [totalN_sigEnsure]

theorem procExpectedPair_totalN_succ (fa va : List (String × String)) (g : String)
    (st : Schema × Signals) (kv : String × String)
    (hcore : ¬ is_core_schema (canon_field_name kv.1 fa))
    (hpnv : canon_value_pnv kv.2 va ∈ PNVconst) :
    totalN st.2 + 1 ≤ totalN (procExpectedPair fa va g st kv).2 := by
  unfold procExpectedPair
  dsimp only
  rw [if_neg hcore]
  dsimp only
  rw [if_pos hpnv]
  have h1 := totalN_sigEnsure st.2 g (canon_field_name kv.1 fa)
  have h2 := totalN_sigBump_succ (sigEnsure st.2 g (canon_field_name kv.1 fa)) g
    (canon_field_name kv.1 fa) (canon_value_pnv kv.2 va)
    (sigEnsure_exists st.2 g (canon_field_name kv.1 fa))
  omega

theorem pairsFold_totalN_le (fa va : List (String × String)) (g : String)
    (kvs : List (String × String)) (st : Schema × Signals) :
    totalN st.2 ≤ totalN ((kvs.foldl (procExpectedPair fa va g) st)).2 := by
  induction kvs generalizing st with
  | nil => exact le_refl _
  | cons kv rest ih =>
    rw [List.foldl_cons]
    exact le_trans (procExpectedPair_totalN_le fa va g st kv) (ih _)

theorem pairsFold_totalN_succ (fa va : List (String × String)) (g : String)
    (kvs : List (String × String)) (st : Schema × Signals)
    (h : ∃ kv ∈ kvs, ¬ is_core_schema (canon_field_name kv.1 fa)
      ∧ canon_value_pnv kv.2 va ∈ PNVconst) :
    totalN st.2 + 1 ≤ totalN ((kvs.foldl (procExpectedPair fa va g) st)).2 := by
  induction kvs generalizing st with
  | nil =>
    obtain ⟨kv, hkv, -⟩ := h
    exact absurd hkv (List.not_mem_nil kv)
  | cons kv0 rest ih =>
    rw [List.foldl_cons]
    obtain ⟨kv, hkv, hc, hp⟩ := h
    rcases List.mem_cons.mp hkv with rfl | hmem
    · have h1 := procExpectedPair_totalN_succ fa va g st kv hc hp
      have h2 := pairsFold_totalN_le fa va g rest (procExpectedPair fa va g st kv)
      omega
    · have h1 := procExpectedPair_totalN_le fa va g st kv0
      have h2 := ih (procExpectedPair fa va g st kv0) ⟨kv, hmem, hc, hp⟩
      omega

theorem testsFold_totalN_le (fa va : List (String × String))
    (tests : List GoldCase) (st : Schema × Signals) :
    totalN st.2 ≤ totalN ((tests.foldl (procCase fa va) st)).2 := by
  induction tests generalizing st with
  | nil => exact le_refl _
  | cons c rest ih =>
    rw [List.foldl_cons]
    exact le_trans (pairsFold_totalN_le fa va (genusKey c.name) c.expected st) (ih _)

theorem testsFold_totalN_succ (fa va : List (String × String))
    (tests : List GoldCase) (st : Schema × Signals)
    (h : ∃ c ∈ tests, ∃ kv ∈ c.expected,
      ¬ is_core_schema (canon_field_name kv.1 fa)
      ∧ canon_value_pnv kv.2 va ∈ PNVconst) :
    totalN st.2 + 1 ≤ totalN ((tests.foldl (procCase fa va) st)).2 := by
  induction tests generalizing st with
  | nil =>
    obtain ⟨c, hc, -⟩ := h
    exact absurd hc (List.not_mem_nil c)
  | cons c0 rest ih =>
    rw [List.foldl_cons]
    obtain ⟨c, hc, kv, hkv, hcp⟩ := h
    rcases List.mem_cons.mp hc with rfl | hmem
    · have h1 : totalN st.2 + 1 ≤ totalN (procCase fa va st c).2 :=
        pairsFold_totalN_succ fa va (genusKey c.name) c.expected st ⟨kv, hkv, hcp⟩
      have h2 := testsFold_totalN_le fa va rest (procCase fa va st c)
      omega
    · have h1 : totalN st.2 ≤ totalN (procCase fa va st c0).2 :=
        pairsFold_totalN_le fa va (genusKey c0.name) c0.expected st
      have h2 := ih (procCase fa va st c0) ⟨c, hmem, kv, hkv, hcp⟩
      omega

/-- Claim C9: running the training pass a second time over an unchanged
proposal log and labeled-case corpus leaves the extended-schema registry
and the alias maps exactly as after the first run — no duplicate schema
entries or alias entries appear — while the signals-catalog evidence mass
strictly increases again whenever the corpus holds at least one non-core
extended field with a Positive/Negative/Variable expected value.
(`NameOk` excludes the whitespace-only case names on which the Python
genus-key derivation would raise `IndexError`.) -/
theorem C9_training_merge_idempotent (s : TrainState) (P : List ProposalRec)
    (T : List GoldCase) (_hname : ∀ c ∈ T, NameOk c.name) :
    (train_from_gold (train_from_gold s P T) P T).ext_schema
      = (train_from_gold s P T).ext_schema
    ∧ (train_from_gold (train_from_gold s P T) P T).field_aliases
      = (train_from_gold s P T).field_aliases
    ∧ (train_from_gold (train_from_gold s P T) P T).value_aliases
      = (train_from_gold s P T).value_aliases
    ∧ ((∃ c ∈ T, ∃ kv ∈ c.expected,
        ¬ is_core_schema (canon_field_name kv.1 s.field_aliases)
        ∧ canon_value_pnv kv.2 s.value_aliases ∈ PNVconst) →
      totalN (train_from_gold s P T).signals
        < totalN (train_from_gold (train_from_gold s P T) P T).signals) := by
  refine ⟨?_, rfl, rfl, ?_⟩
  · show (T.foldl (procCase s.field_aliases s.value_aliases)
      (P.foldl (procProposal s.field_aliases) (train_from_gold s P T).ext_schema,
        (train_from_gold s P T).signals)).1 = (train_from_gold s P T).ext_schema
    have hPsat : ∀ rec0 ∈ P,
        propSaturated s.field_aliases (train_from_gold s P T).ext_schema rec0 := by
      intro rec0 h
      exact propSaturated_mono
        (testsFold_le s.field_aliases s.value_aliases T
          (P.foldl (procProposal s.field_aliases) s.ext_schema, s.signals))
        (propsFold_sat s.field_aliases P s.ext_schema rec0 h)
    have hTsat := testsFold_sat s.field_aliases s.value_aliases T
      (P.foldl (procProposal s.field_aliases) s.ext_schema, s.signals)
    rw [propsFold_id s.field_aliases P _ hPsat]
    exact testsFold_id_schema s.field_aliases s.value_aliases T _
      (fun c hc kv hkv => hTsat c hc kv hkv)
  · intro hx
    have h := testsFold_totalN_succ s.field_aliases s.value_aliases T
      (P.foldl (procProposal s.field_aliases) (train_from_gold s P T).ext_schema,
        (train_from_gold s P T).signals) hx
    exact h

/-- Empty initial artifacts for the C9 witness. -/
def s0C9 : TrainState :=
  { ext_schema := [], field_aliases := [], value_aliases := [], signals := [] }

/-- A one-record proposal log for the C9 witness. -/
def P0C9 : List ProposalRec := [{ rtype := "unknown_field", field := "Zeta Test" }]

/-- A one-case corpus with a non-core expected value for the C9 witness. -/
def T0C9 : List GoldCase :=
  [{ name := "Bacillus subtilis", expected := [("Zeta Test", "positive")] }]

/-- Witness for C9 at concrete artifacts, log and corpus. -/
theorem C9_training_merge_idempotent_witness :
    (train_from_gold (train_from_gold s0C9 P0C9 T0C9) P0C9 T0C9).ext_schema
      = (train_from_gold s0C9 P0C9 T0C9).ext_schema
    ∧ totalN (train_from_gold s0C9 P0C9 T0C9).signals
      < totalN (train_from_gold (train_from_gold s0C9 P0C9 T0C9) P0C9 T0C9).signals := by
  have h := C9_training_merge_idempotent s0C9 P0C9 T0C9 (by decide)
  exact ⟨h.1, h.2.2.2 (by decide)⟩

end SyncKing
